import Mathlib

/-!
Verification of the DutyHours dashboard core (src/app.py).

Embedding conventions:
* A pandas timestamp is modelled as a rational number of seconds (`ℚ`);
  `(t - open_start).total_seconds() / 3600.0` becomes `(t - open_start) / 3600`.
* The `ArrivedLeft` column holds the raw strings `"Arrived at location"` /
  `"Left location"`, compared literally as in the source.
* A dataframe row group for one location is a `List Row`; the output session
  table of `pair_arrive_left` is a `List Session` (field names follow the
  source's column names: `DateandTime` is the session start, `TimeElapsed`
  the duration in hours).
-/

namespace DutyHours

/-- A session row as appended by `pair_arrive_left` in src/app.py
(`DateandTime` = open_start, `TimeElapsed` = duration in hours). -/
structure Session where
  DateandTime : ℚ
  Location : String
  Address : String
  TimeElapsed : ℚ
deriving DecidableEq, Repr

/-- A normalized event row (after datetime parsing): the four columns
`DateandTime`, `ArrivedLeft`, `Address`, `Location` of the combined frame. -/
structure Row where
  DateandTime : ℚ
  ArrivedLeft : String
  Address : String
  Location : String
deriving DecidableEq, Repr

/-- MAX_SHIFT_HOURS = 45 in src/app.py. -/
def MAX_SHIFT_HOURS : ℚ := 45

/-- The open-session state of the scan in `pair_arrive_left`:
`none` when `open_start is None`, otherwise `some (open_start, open_addr, open_loc)`.
The three Python variables are always assigned and cleared together, so a
single option of a triple is an exact model of the reachable states. -/
abbrev OpenSt := Option (ℚ × String × String)

/-- One iteration of the `for t, event, addr, loc in zip(...)` loop body of
`pair_arrive_left` (src/app.py lines 108-132): returns the new state and the
list of rows appended during this iteration (empty or a singleton). -/
def step (maxH : ℚ) (st : OpenSt) (e : Row) : OpenSt × List Session :=
  if e.ArrivedLeft = "Arrived at location" then
    (some (e.DateandTime, e.Address, e.Location), [])
  else if e.ArrivedLeft = "Left location" then
    match st with
    | some (s, addr, loc) =>
      let hours := (e.DateandTime - s) / 3600
      (none,
        if 0 < hours ∧ hours ≤ maxH then
          [{ DateandTime := s, Location := loc, Address := addr, TimeElapsed := hours }]
        else [])
    | none => (st, [])
  else (st, [])

/-- The loop of `pair_arrive_left` run from state `st`: concatenation of the
rows appended by each iteration. -/
def pairLoop (maxH : ℚ) (st : OpenSt) : List Row → List Session
  | [] => []
  | e :: rest => (step maxH st e).2 ++ pairLoop maxH (step maxH st e).1 rest

/-- The open-session state after the loop of `pair_arrive_left` has consumed
the given events starting from state `st`. -/
def runState (maxH : ℚ) (st : OpenSt) : List Row → OpenSt
  | [] => st
  | e :: rest => runState maxH (step maxH st e).1 rest

/-- Model of `pair_arrive_left` from src/app.py: the whole scan over one location's
time-ordered group, started with `open_start = open_addr = open_loc = None`. -/
def pair_arrive_left (maxH : ℚ) (g : List Row) : List Session :=
  pairLoop maxH none g

theorem pairLoop_append (maxH : ℚ) (st : OpenSt) (xs ys : List Row) :
    pairLoop maxH st (xs ++ ys) =
      pairLoop maxH st xs ++ pairLoop maxH (runState maxH st xs) ys := by
  induction xs generalizing st with
  | nil => simp [pairLoop, runState]
  | cons e rest ih => simp [pairLoop, runState, ih]

theorem runState_append (maxH : ℚ) (st : OpenSt) (xs ys : List Row) :
    runState maxH st (xs ++ ys) = runState maxH (runState maxH st xs) ys := by
  induction xs generalizing st with
  | nil => simp [runState]
  | cons e rest ih => simp [runState, ih]

/-- C1: an Arrived event immediately followed by a Left event with elapsed
time in `(0, max_session_hours]` hours yields exactly one Session for the
pair — start = the Arrived timestamp, duration = the elapsed hours — while
the output for the preceding events is unchanged and the scan continues on
the remaining events with a cleared state. -/
theorem arrived_then_left_emits_one_session (maxH : ℚ) (pre post : List Row) (a l : Row)
    (ha : a.ArrivedLeft = "Arrived at location") (hl : l.ArrivedLeft = "Left location")
    (hloc : l.Location = a.Location)
    (h0 : 0 < (l.DateandTime - a.DateandTime) / 3600)
    (hm : (l.DateandTime - a.DateandTime) / 3600 ≤ maxH) :
    pair_arrive_left maxH (pre ++ a :: l :: post) =
      pair_arrive_left maxH pre ++
        { DateandTime := a.DateandTime, Location := a.Location, Address := a.Address,
          TimeElapsed := (l.DateandTime - a.DateandTime) / 3600 } ::
        pairLoop maxH none post := by
  have hne : l.ArrivedLeft ≠ "Arrived at location" := by
    rw [hl]; decide
  unfold pair_arrive_left
  rw [pairLoop_append]
  congr 1
  have hlt : a.DateandTime < l.DateandTime := by linarith
  simp [pairLoop, step, ha, hl, hne, hlt, hm]

theorem arrived_then_left_emits_one_session_witness :
    pair_arrive_left 45
        ([] ++ ⟨0, "Arrived at location", "addr", "Clinic A"⟩ ::
          ⟨30600, "Left location", "addr", "Clinic A"⟩ :: []) =
      pair_arrive_left 45 [] ++
        { DateandTime := 0, Location := "Clinic A", Address := "addr",
          TimeElapsed := (30600 - 0) / 3600 } :: pairLoop 45 none [] :=
  arrived_then_left_emits_one_session 45 [] []
    ⟨0, "Arrived at location", "addr", "Clinic A"⟩
    ⟨30600, "Left location", "addr", "Clinic A"⟩
    rfl rfl rfl (by norm_num) (by norm_num)

/-- C2: in a per-location stream Arrived@T1, Arrived@T2 (T2 > T1), Left@T3
with `(T3 - T2)` a valid gap, the later Arrived overwrites the unmatched
earlier one — exactly one Session is emitted, with start = T2 and the second
Arrived's address, and no emitted Session has start = T1. -/
theorem second_arrived_overwrites_first (maxH : ℚ) (a1 a2 l : Row)
    (ha1 : a1.ArrivedLeft = "Arrived at location")
    (ha2 : a2.ArrivedLeft = "Arrived at location")
    (hl : l.ArrivedLeft = "Left location")
    (h12 : a1.DateandTime < a2.DateandTime)
    (h0 : 0 < (l.DateandTime - a2.DateandTime) / 3600)
    (hm : (l.DateandTime - a2.DateandTime) / 3600 ≤ maxH) :
    pair_arrive_left maxH [a1, a2, l] =
      [{ DateandTime := a2.DateandTime, Location := a2.Location, Address := a2.Address,
         TimeElapsed := (l.DateandTime - a2.DateandTime) / 3600 }] ∧
    ∀ s ∈ pair_arrive_left maxH [a1, a2, l], s.DateandTime ≠ a1.DateandTime := by
  have hne : l.ArrivedLeft ≠ "Arrived at location" := by rw [hl]; decide
  have hlt : a2.DateandTime < l.DateandTime := by linarith
  have hout : pair_arrive_left maxH [a1, a2, l] =
      [{ DateandTime := a2.DateandTime, Location := a2.Location, Address := a2.Address,
         TimeElapsed := (l.DateandTime - a2.DateandTime) / 3600 }] := by
    simp [pair_arrive_left, pairLoop, step, ha1, ha2, hl, hne, hlt, hm]
  refine ⟨hout, ?_⟩
  intro s hs
  rw [hout] at hs
  simp only [List.mem_singleton] at hs
  subst hs
  exact fun h => absurd h (by simpa using ne_of_gt h12)

theorem second_arrived_overwrites_first_witness :
    pair_arrive_left 45
        [⟨0, "Arrived at location", "a1", "L"⟩, ⟨600, "Arrived at location", "a2", "L"⟩,
         ⟨4200, "Left location", "a3", "L"⟩] =
      [{ DateandTime := 600, Location := "L", Address := "a2",
         TimeElapsed := (4200 - 600) / 3600 }] ∧
    ∀ s ∈ pair_arrive_left 45
        [⟨0, "Arrived at location", "a1", "L"⟩, ⟨600, "Arrived at location", "a2", "L"⟩,
         ⟨4200, "Left location", "a3", "L"⟩], s.DateandTime ≠ 0 :=
  second_arrived_overwrites_first 45
    ⟨0, "Arrived at location", "a1", "L"⟩ ⟨600, "Arrived at location", "a2", "L"⟩
    ⟨4200, "Left location", "a3", "L"⟩
    rfl rfl rfl (by norm_num) (by norm_num) (by norm_num)

/-- C3: a Left event whose gap from the open Arrived is non-positive or
exceeds max_session_hours yields no Session, and the open state is cleared
anyway — the rest of the stream is processed exactly as if started fresh. -/
theorem invalid_left_clears_state (maxH : ℚ) (s : ℚ) (addr loc : String) (l : Row)
    (rest : List Row) (hl : l.ArrivedLeft = "Left location")
    (hbad : (l.DateandTime - s) / 3600 ≤ 0 ∨ maxH < (l.DateandTime - s) / 3600) :
    pairLoop maxH (some (s, addr, loc)) (l :: rest) = pairLoop maxH none rest ∧
    (step maxH (some (s, addr, loc)) l).2 = [] ∧
    (step maxH (some (s, addr, loc)) l).1 = none := by
  have hne : l.ArrivedLeft ≠ "Arrived at location" := by rw [hl]; decide
  have hcond : ¬(0 < (l.DateandTime - s) / 3600 ∧ (l.DateandTime - s) / 3600 ≤ maxH) := by
    rcases hbad with h | h
    · exact fun hc => absurd hc.1 (not_lt.mpr h)
    · exact fun hc => absurd hc.2 (not_le.mpr h)
  have hstep : step maxH (some (s, addr, loc)) l = (none, []) := by
    unfold step
    rw [if_neg hne, if_pos hl]
    dsimp only
    rw [if_neg hcond]
  exact ⟨by simp [pairLoop, hstep], by rw [hstep], by rw [hstep]⟩

theorem invalid_left_clears_state_witness :
    pairLoop 45 (some (0, "a", "L")) (⟨180000, "Left location", "a", "L"⟩ ::
        [⟨200000, "Arrived at location", "a", "L"⟩, ⟨203600, "Left location", "a", "L"⟩]) =
      pairLoop 45 none
        [⟨200000, "Arrived at location", "a", "L"⟩, ⟨203600, "Left location", "a", "L"⟩] ∧
    (step 45 (some (0, "a", "L")) ⟨180000, "Left location", "a", "L"⟩).2 = [] ∧
    (step 45 (some (0, "a", "L")) ⟨180000, "Left location", "a", "L"⟩).1 = none :=
  invalid_left_clears_state 45 0 "a" "L" ⟨180000, "Left location", "a", "L"⟩
    [⟨200000, "Arrived at location", "a", "L"⟩, ⟨203600, "Left location", "a", "L"⟩]
    rfl (Or.inr (by norm_num))

/-- C4: a Left event arriving while no session is open is discarded silently:
no Session, state unchanged, and the whole output equals the output for the
same stream with that Left removed. -/
theorem unmatched_left_is_noop (maxH : ℚ) (pre post : List Row) (l : Row)
    (hl : l.ArrivedLeft = "Left location")
    (hopen : runState maxH none pre = none) :
    pair_arrive_left maxH (pre ++ l :: post) = pair_arrive_left maxH (pre ++ post) ∧
    runState maxH none (pre ++ l :: post) = runState maxH none (pre ++ post) := by
  have hne : l.ArrivedLeft ≠ "Arrived at location" := by rw [hl]; decide
  have hstep : step maxH none l = (none, []) := by simp [step, hl, hne]
  constructor
  · unfold pair_arrive_left
    rw [pairLoop_append, pairLoop_append, hopen]
    simp [pairLoop, hstep]
  · rw [runState_append, runState_append, hopen]
    simp [runState, hstep]

theorem unmatched_left_is_noop_witness :
    pair_arrive_left 45 ([⟨100, "other", "a", "L"⟩] ++ ⟨200, "Left location", "a", "L"⟩ ::
        [⟨300, "Arrived at location", "a", "L"⟩, ⟨3900, "Left location", "a", "L"⟩]) =
      pair_arrive_left 45 ([⟨100, "other", "a", "L"⟩] ++
        [⟨300, "Arrived at location", "a", "L"⟩, ⟨3900, "Left location", "a", "L"⟩]) ∧
    runState 45 none ([⟨100, "other", "a", "L"⟩] ++ ⟨200, "Left location", "a", "L"⟩ ::
        [⟨300, "Arrived at location", "a", "L"⟩, ⟨3900, "Left location", "a", "L"⟩]) =
      runState 45 none ([⟨100, "other", "a", "L"⟩] ++
        [⟨300, "Arrived at location", "a", "L"⟩, ⟨3900, "Left location", "a", "L"⟩]) :=
  unmatched_left_is_noop 45 [⟨100, "other", "a", "L"⟩]
    [⟨300, "Arrived at location", "a", "L"⟩, ⟨3900, "Left location", "a", "L"⟩]
    ⟨200, "Left location", "a", "L"⟩ rfl (by decide)

theorem mem_step_snd (maxH : ℚ) (st : OpenSt) (e : Row) (s : Session)
    (hs : s ∈ (step maxH st e).2) : 0 < s.TimeElapsed ∧ s.TimeElapsed ≤ maxH := by
  unfold step at hs
  by_cases hA : e.ArrivedLeft = "Arrived at location"
  · rw [if_pos hA] at hs
    simp at hs
  · rw [if_neg hA] at hs
    by_cases hL : e.ArrivedLeft = "Left location"
    · rw [if_pos hL] at hs
      rcases st with _ | ⟨s0, addr, loc⟩
      · simp at hs
      · dsimp only at hs
        by_cases hc : 0 < (e.DateandTime - s0) / 3600 ∧ (e.DateandTime - s0) / 3600 ≤ maxH
        · rw [if_pos hc] at hs
          simp only [List.mem_singleton] at hs
          subst hs
          exact hc
        · rw [if_neg hc] at hs
          simp at hs
    · rw [if_neg hL] at hs
      simp at hs

/-- C8: every Session ever emitted by the pairing scan has
`0 < TimeElapsed ≤ max_session_hours`; out-of-bounds durations are dropped,
never clamped. -/
theorem emitted_sessions_bounded (maxH : ℚ) (events : List Row) :
    ∀ s ∈ pair_arrive_left maxH events, 0 < s.TimeElapsed ∧ s.TimeElapsed ≤ maxH := by
  suffices h : ∀ (evs : List Row) (st : OpenSt),
      ∀ s ∈ pairLoop maxH st evs, 0 < s.TimeElapsed ∧ s.TimeElapsed ≤ maxH from
    h events none
  intro evs
  induction evs with
  | nil => intro st; simp [pairLoop]
  | cons e rest ih =>
    intro st s hs
    simp only [pairLoop, List.mem_append] at hs
    rcases hs with hs | hs
    · exact mem_step_snd maxH st e s hs
    · exact ih _ s hs

theorem emitted_sessions_bounded_witness :
    0 < (Session.mk 0 "L" "a" 2).TimeElapsed ∧ (Session.mk 0 "L" "a" 2).TimeElapsed ≤ 45 :=
  emitted_sessions_bounded 45
    [⟨0, "Arrived at location", "a", "L"⟩, ⟨7200, "Left location", "a", "L"⟩]
    (Session.mk 0 "L" "a" 2)
    (by
      norm_num [pair_arrive_left, pairLoop, step]
      rw [if_neg (show ¬("Left location" = "Arrived at location") by decide)]
      simp)

/-- C9: an Arrived event still open at stream end contributes no Session:
the output for the stream with a trailing Arrived equals the output for the
stream without it. -/
theorem trailing_arrived_discarded (maxH : ℚ) (events : List Row) (a : Row)
    (ha : a.ArrivedLeft = "Arrived at location") :
    pair_arrive_left maxH (events ++ [a]) = pair_arrive_left maxH events := by
  unfold pair_arrive_left
  rw [pairLoop_append]
  simp [pairLoop, step, ha]

theorem trailing_arrived_discarded_witness :
    pair_arrive_left 45
        ([⟨0, "Arrived at location", "a", "L"⟩, ⟨30600, "Left location", "a", "L"⟩] ++
          [⟨100000, "Arrived at location", "a", "L"⟩]) =
      pair_arrive_left 45
        [⟨0, "Arrived at location", "a", "L"⟩, ⟨30600, "Left location", "a", "L"⟩] :=
  trailing_arrived_discarded 45
    [⟨0, "Arrived at location", "a", "L"⟩, ⟨30600, "Left location", "a", "L"⟩]
    ⟨100000, "Arrived at location", "a", "L"⟩ rfl

/-- C10: an event whose kind string is neither "Arrived at location" nor
"Left location" is a no-op: it changes neither the emitted Sessions nor the
scan state, so the output equals the output with that event removed. -/
theorem unknown_kind_is_noop (maxH : ℚ) (pre post : List Row) (e : Row)
    (h1 : e.ArrivedLeft ≠ "Arrived at location")
    (h2 : e.ArrivedLeft ≠ "Left location") :
    pair_arrive_left maxH (pre ++ e :: post) = pair_arrive_left maxH (pre ++ post) ∧
    runState maxH none (pre ++ e :: post) = runState maxH none (pre ++ post) := by
  have hstep : ∀ st : OpenSt, step maxH st e = (st, []) := by
    intro st; simp [step, h1, h2]
  constructor
  · unfold pair_arrive_left
    rw [pairLoop_append, pairLoop_append]
    simp [pairLoop, hstep]
  · rw [runState_append, runState_append]
    simp [runState, hstep]

theorem unknown_kind_is_noop_witness :
    pair_arrive_left 45 ([⟨0, "Arrived at location", "a", "L"⟩] ++
        ⟨50, "Arrived", "a", "L"⟩ :: [⟨3650, "Left location", "a", "L"⟩]) =
      pair_arrive_left 45 ([⟨0, "Arrived at location", "a", "L"⟩] ++
        [⟨3650, "Left location", "a", "L"⟩]) ∧
    runState 45 none ([⟨0, "Arrived at location", "a", "L"⟩] ++
        ⟨50, "Arrived", "a", "L"⟩ :: [⟨3650, "Left location", "a", "L"⟩]) =
      runState 45 none ([⟨0, "Arrived at location", "a", "L"⟩] ++
        [⟨3650, "Left location", "a", "L"⟩]) :=
  unknown_kind_is_noop 45 [⟨0, "Arrived at location", "a", "L"⟩]
    [⟨3650, "Left location", "a", "L"⟩] ⟨50, "Arrived", "a", "L"⟩
    (by decide) (by decide)

/-! Aggregation, from `update_graphs` in src/app.py. `start_date`/`end_date`
are the picker bounds as timestamps; `df` is the session table. -/

/-- The row filter of update_graphs:
`df[(df["DateandTime"] >= start_date) & (df["DateandTime"] <= end_date)]`. -/
def filtered_df (df : List Session) (start_date end_date : ℚ) : List Session :=
  df.filter (fun r => decide (start_date ≤ r.DateandTime ∧ r.DateandTime ≤ end_date))

/-- total_duty_hours from update_graphs:
`float(filtered_df["TimeElapsed"].sum()) if not filtered_df.empty else 0.0`. -/
def total_duty_hours (df : List Session) (start_date end_date : ℚ) : ℚ :=
  if (filtered_df df start_date end_date).isEmpty then 0
  else ((filtered_df df start_date end_date).map Session.TimeElapsed).sum

/-- Add a value into an association-list bucket keyed by `k` (the bucket map
underlying a pandas `groupby(...).sum()`). -/
def addToBucket {κ : Type} [DecidableEq κ] (k : κ) (v : ℚ) :
    List (κ × ℚ) → List (κ × ℚ)
  | [] => [(k, v)]
  | (k', v') :: rest =>
    if k = k' then (k', v' + v) :: rest else (k', v') :: addToBucket k v rest

/-- Model of `groupby(key)["TimeElapsed"].sum()` over a session list: one bucket per
distinct key, holding the sum of `TimeElapsed` over rows with that key.
Bucket order is irrelevant to the properties proved here. -/
def groupSum {κ : Type} [DecidableEq κ] (key : Session → κ) :
    List Session → List (κ × ℚ)
  | [] => []
  | r :: rest => addToBucket (key r) r.TimeElapsed (groupSum key rest)

/-- The calendar date of a timestamp (`.dt.date`), encoded as the day index
since the epoch: distinct dates map to distinct indices and conversely. -/
def dayKey (t : ℚ) : ℤ := ⌊t / 86400⌋

/-- Gregorian leap-year test. -/
def isLeap (y : ℤ) : Bool := decide ((y.fmod 4 = 0 ∧ y.fmod 100 ≠ 0) ∨ y.fmod 400 = 0)

/-- Days in the months strictly before month `m` of a non-leap year. -/
def daysBeforeMonth (m : ℤ) : ℤ :=
  if m ≤ 1 then 0 else if m = 2 then 31 else if m = 3 then 59 else if m = 4 then 90
  else if m = 5 then 120 else if m = 6 then 151 else if m = 7 then 181 else if m = 8 then 212
  else if m = 9 then 243 else if m = 10 then 273 else if m = 11 then 304 else 334

/-- Civil calendar date (year, month, day) of a day index since 1970-01-01
(standard days-to-civil conversion). -/
def civilFromDays (z : ℤ) : ℤ × ℤ × ℤ :=
  let z' := z + 719468
  let era := z'.fdiv 146097
  let doe := z' - era * 146097
  let yoe := (doe - doe.fdiv 1460 + doe.fdiv 36524 - doe.fdiv 146096).fdiv 365
  let doyM := doe - (365 * yoe + yoe.fdiv 4 - yoe.fdiv 100)
  let mp := (5 * doyM + 2).fdiv 153
  let d := doyM - (153 * mp + 2).fdiv 5 + 1
  let m := mp + (if mp < 10 then 3 else -9)
  (yoe + era * 400 + (if m ≤ 2 then 1 else 0), m, d)

/-- Ordinal day of the year (Jan 1 = 1) of a day index. -/
def dayOfYear (z : ℤ) : ℤ :=
  let ymd := civilFromDays z
  daysBeforeMonth ymd.2.1 + (if 2 < ymd.2.1 ∧ isLeap ymd.1 then 1 else 0) + ymd.2.2

/-- strftime("%W") of a day index: week number of the year, Monday as first
day, days before the first Monday in week 0. Note the source groups by this
number alone, so equal week numbers of different years share a bucket. -/
def weekOfYear (z : ℤ) : ℤ :=
  (dayOfYear z + 6 - (z + 3).fmod 7).fdiv 7

/-- duty_hours_by_day from update_graphs:
`filtered_df.groupby(filtered_df["DateandTime"].dt.date)["TimeElapsed"].sum()`
when the filtered frame is non-empty, else an empty series. -/
def duty_hours_by_day (df : List Session) (start_date end_date : ℚ) : List (ℤ × ℚ) :=
  if (filtered_df df start_date end_date).isEmpty then []
  else groupSum (fun r => dayKey r.DateandTime) (filtered_df df start_date end_date)

/-- duty_hours_by_location from update_graphs:
`filtered_df.groupby("Location")["TimeElapsed"].sum()` when non-empty. -/
def duty_hours_by_location (df : List Session) (start_date end_date : ℚ) : List (String × ℚ) :=
  if (filtered_df df start_date end_date).isEmpty then []
  else groupSum Session.Location (filtered_df df start_date end_date)

/-- duty_hours_by_week from update_graphs:
`filtered_df.groupby(filtered_df["DateandTime"].dt.strftime("%W"))["TimeElapsed"].sum()`
when non-empty. -/
def duty_hours_by_week (df : List Session) (start_date end_date : ℚ) : List (ℤ × ℚ) :=
  if (filtered_df df start_date end_date).isEmpty then []
  else groupSum (fun r => weekOfYear (dayKey r.DateandTime)) (filtered_df df start_date end_date)

theorem sndSum_addToBucket {κ : Type} [DecidableEq κ] (k : κ) (v : ℚ) (l : List (κ × ℚ)) :
    ((addToBucket k v l).map Prod.snd).sum = v + (l.map Prod.snd).sum := by
  induction l with
  | nil => simp [addToBucket]
  | cons p rest ih =>
    obtain ⟨k', v'⟩ := p
    by_cases h : k = k'
    · simp only [addToBucket, if_pos h, List.map_cons, List.sum_cons]
      ring
    · simp only [addToBucket, if_neg h, List.map_cons, List.sum_cons, ih]
      ring

theorem sndSum_groupSum {κ : Type} [DecidableEq κ] (key : Session → κ) (l : List Session) :
    ((groupSum key l).map Prod.snd).sum = (l.map Session.TimeElapsed).sum := by
  induction l with
  | nil => rfl
  | cons r rest ih => simp [groupSum, sndSum_addToBucket, ih]

/-- C5: the aggregation keeps exactly the sessions whose start lies in
`[start_date, end_date]` inclusive; total_duty_hours is the sum of
TimeElapsed over that filtered set; and an empty filtered set yields a zero
total and empty day/week/location buckets. -/
theorem aggregation_filter_and_total (df : List Session) (start_date end_date : ℚ) :
    (∀ r, r ∈ filtered_df df start_date end_date ↔
        r ∈ df ∧ start_date ≤ r.DateandTime ∧ r.DateandTime ≤ end_date) ∧
    total_duty_hours df start_date end_date =
      ((filtered_df df start_date end_date).map Session.TimeElapsed).sum ∧
    (filtered_df df start_date end_date = [] →
      total_duty_hours df start_date end_date = 0 ∧
      duty_hours_by_day df start_date end_date = [] ∧
      duty_hours_by_week df start_date end_date = [] ∧
      duty_hours_by_location df start_date end_date = []) := by
  refine ⟨?_, ?_, ?_⟩
  · intro r
    simp [filtered_df, List.mem_filter, and_assoc]
  · by_cases h : (filtered_df df start_date end_date).isEmpty
    · rw [total_duty_hours, if_pos h, List.isEmpty_iff.mp h]
      simp
    · rw [total_duty_hours, if_neg h]
  · intro h
    have h' : (filtered_df df start_date end_date).isEmpty := List.isEmpty_iff.mpr h
    refine ⟨?_, ?_, ?_, ?_⟩ <;>
      simp [total_duty_hours, duty_hours_by_day, duty_hours_by_week,
        duty_hours_by_location, h']

theorem aggregation_filter_and_total_witness :
    total_duty_hours [Session.mk 0 "L" "a" 2] 5 4 = 0 ∧
    duty_hours_by_day [Session.mk 0 "L" "a" 2] 5 4 = [] ∧
    duty_hours_by_week [Session.mk 0 "L" "a" 2] 5 4 = [] ∧
    duty_hours_by_location [Session.mk 0 "L" "a" 2] 5 4 = [] :=
  (aggregation_filter_and_total [Session.mk 0 "L" "a" 2] 5 4).2.2
    (by norm_num [filtered_df])

/-- C7: the aggregates are mutually consistent — total_duty_hours equals the
sum of the by-location bucket values and the sum of the by-day bucket
values, over the same filtered session set. -/
theorem aggregates_consistent (df : List Session) (start_date end_date : ℚ) :
    total_duty_hours df start_date end_date =
      ((duty_hours_by_location df start_date end_date).map Prod.snd).sum ∧
    total_duty_hours df start_date end_date =
      ((duty_hours_by_day df start_date end_date).map Prod.snd).sum := by
  by_cases h : (filtered_df df start_date end_date).isEmpty
  · constructor <;>
      simp [total_duty_hours, duty_hours_by_location, duty_hours_by_day, h]
  · constructor <;>
      simp [total_duty_hours, duty_hours_by_location, duty_hours_by_day, h, sndSum_groupSum]

/-! Normalization, from the module-level pipeline of src/app.py (lines
72-85): parse the DateandTime column with errors="coerce", drop rows that
failed to parse, sort by (Location, DateandTime), drop duplicates on the
(Location, DateandTime, ArrivedLeft) triple keeping the first occurrence.
The textual datetime parser itself is pandas library code, so it is taken
as a parameter `parse : String → Option ℚ` (`none` models NaT). -/

/-- A raw spreadsheet row of the combined frame before datetime parsing. -/
structure RawRow where
  DateandTime : String
  ArrivedLeft : String
  Address : String
  Location : String
deriving DecidableEq, Repr

/-- Model of `pd.to_datetime(..., errors="coerce")` followed by
`dropna(subset=["DateandTime"])`: rows whose timestamp fails to parse are
dropped, the rest carry the parsed timestamp. -/
def parsed_rows (parse : String → Option ℚ) (rows : List RawRow) : List Row :=
  rows.filterMap (fun r => (parse r.DateandTime).map
    (fun t => Row.mk t r.ArrivedLeft r.Address r.Location))

/-- The lexicographic comparison of `sort_values(by=["Location", "DateandTime"])`. -/
def rowLe (a b : Row) : Bool :=
  decide (a.Location < b.Location ∨ (a.Location = b.Location ∧ a.DateandTime ≤ b.DateandTime))

/-- Model of `sort_values(by=["Location", "DateandTime"])`: a stable lexicographic
sort (pandas multi-column sorting is stable). -/
def sorted_rows (l : List Row) : List Row := l.mergeSort rowLe

/-- The duplicate key of `drop_duplicates(subset=["Location", "DateandTime",
"ArrivedLeft"])`. -/
def key3 (r : Row) : String × ℚ × String := (r.Location, r.DateandTime, r.ArrivedLeft)

/-- Model of `drop_duplicates(..., keep="first")`: scan the list front to back,
keeping a row only when its key has not been seen before. -/
def drop_duplicates : List Row → List (String × ℚ × String) → List Row
  | [], _ => []
  | r :: rest, seen =>
    if key3 r ∈ seen then drop_duplicates rest seen
    else r :: drop_duplicates rest (key3 r :: seen)

/-- The whole normalization pipeline of src/app.py lines 72-85. -/
def normalized (parse : String → Option ℚ) (rows : List RawRow) : List Row :=
  drop_duplicates (sorted_rows (parsed_rows parse rows)) []

theorem rowLe_trans (a b c : Row) (hab : rowLe a b) (hbc : rowLe b c) : rowLe a c := by
  simp only [rowLe, decide_eq_true_eq] at *
  rcases hab with h | ⟨h, h'⟩ <;> rcases hbc with g | ⟨g, g'⟩
  · exact Or.inl (lt_trans h g)
  · exact Or.inl (g ▸ h)
  · exact Or.inl (h ▸ g)
  · exact Or.inr ⟨h.trans g, le_trans h' g'⟩

theorem rowLe_total (a b : Row) : rowLe a b || rowLe b a := by
  simp only [rowLe, Bool.or_eq_true, decide_eq_true_eq]
  rcases lt_trichotomy a.Location b.Location with h | h | h
  · exact Or.inl (Or.inl h)
  · rcases le_total a.DateandTime b.DateandTime with h' | h'
    · exact Or.inl (Or.inr ⟨h, h'⟩)
    · exact Or.inr (Or.inr ⟨h.symm, h'⟩)
  · exact Or.inr (Or.inl h)

theorem sorted_rows_pairwise (l : List Row) :
    (sorted_rows l).Pairwise (fun a b => rowLe a b = true) :=
  List.sorted_mergeSort (fun a b c => rowLe_trans a b c) rowLe_total l

theorem drop_duplicates_sublist (l : List Row) (seen : List (String × ℚ × String)) :
    (drop_duplicates l seen).Sublist l := by
  induction l generalizing seen with
  | nil => simp [drop_duplicates]
  | cons r rest ih =>
    by_cases h : key3 r ∈ seen
    · rw [drop_duplicates, if_pos h]
      exact (ih seen).cons r
    · rw [drop_duplicates, if_neg h]
      exact (ih (key3 r :: seen)).cons₂ r

theorem drop_duplicates_key_not_seen (l : List Row) (seen : List (String × ℚ × String)) :
    ∀ r ∈ drop_duplicates l seen, key3 r ∉ seen := by
  induction l generalizing seen with
  | nil => simp [drop_duplicates]
  | cons r rest ih =>
    by_cases h : key3 r ∈ seen
    · rw [drop_duplicates, if_pos h]
      exact ih seen
    · rw [drop_duplicates, if_neg h]
      intro x hx
      rcases List.mem_cons.mp hx with rfl | hx
      · exact h
      · intro hseen
        exact (ih (key3 r :: seen) _ hx) (List.mem_cons_of_mem _ hseen)

theorem drop_duplicates_pairwise_ne (l : List Row) (seen : List (String × ℚ × String)) :
    (drop_duplicates l seen).Pairwise (fun a b => key3 a ≠ key3 b) := by
  induction l generalizing seen with
  | nil => exact List.Pairwise.nil
  | cons r rest ih =>
    by_cases h : key3 r ∈ seen
    · rw [drop_duplicates, if_pos h]
      exact ih seen
    · rw [drop_duplicates, if_neg h]
      refine List.Pairwise.cons ?_ (ih (key3 r :: seen))
      intro b hb hkey
      exact (drop_duplicates_key_not_seen rest (key3 r :: seen) b hb)
        (hkey ▸ List.mem_cons_self _ _)

theorem drop_duplicates_find? (l : List Row) (seen : List (String × ℚ × String))
    (k : String × ℚ × String) (hk : k ∉ seen) :
    (drop_duplicates l seen).find? (fun r => decide (key3 r = k)) =
      l.find? (fun r => decide (key3 r = k)) := by
  induction l generalizing seen with
  | nil => simp [drop_duplicates]
  | cons r rest ih =>
    by_cases h : key3 r ∈ seen
    · rw [drop_duplicates, if_pos h]
      have hne : key3 r ≠ k := fun he => hk (he ▸ h)
      rw [List.find?_cons_of_neg _ (by simpa using hne)]
      exact ih seen hk
    · rw [drop_duplicates, if_neg h]
      by_cases he : key3 r = k
      · rw [List.find?_cons_of_pos _ (by simpa using he),
          List.find?_cons_of_pos _ (by simpa using he)]
      · rw [List.find?_cons_of_neg _ (by simpa using he),
          List.find?_cons_of_neg _ (by simpa using he)]
        exact ih (key3 r :: seen) (by
          intro hx
          rcases List.mem_cons.mp hx with hx | hx
          · exact he hx.symm
          · exact hk hx)

/-- C6: the normalized table drops every row whose timestamp fails to parse
(each output row originates from an input row whose timestamp parsed to
exactly its timestamp); per location the timestamps are non-decreasing; no
two retained rows share the (Location, DateandTime, ArrivedLeft) triple; and
for each triple the retained row is the first occurrence in sorted order. -/
theorem normalized_invariants (parse : String → Option ℚ) (rows : List RawRow) :
    (∀ r ∈ normalized parse rows, ∃ raw ∈ rows,
        parse raw.DateandTime = some r.DateandTime ∧ r.ArrivedLeft = raw.ArrivedLeft ∧
        r.Address = raw.Address ∧ r.Location = raw.Location) ∧
    (∀ loc : String, ((normalized parse rows).filter
        (fun r => decide (r.Location = loc))).Pairwise
        (fun a b => a.DateandTime ≤ b.DateandTime)) ∧
    (normalized parse rows).Pairwise (fun a b => key3 a ≠ key3 b) ∧
    (∀ k, (normalized parse rows).find? (fun r => decide (key3 r = k)) =
        (sorted_rows (parsed_rows parse rows)).find? (fun r => decide (key3 r = k))) := by
  refine ⟨?_, ?_, drop_duplicates_pairwise_ne _ _, fun k => drop_duplicates_find? _ _ k (by simp)⟩
  · intro r hr
    have hsorted : r ∈ sorted_rows (parsed_rows parse rows) :=
      (drop_duplicates_sublist _ _).mem hr
    have hparsed : r ∈ parsed_rows parse rows :=
      (List.mergeSort_perm (parsed_rows parse rows) rowLe).mem_iff.mp hsorted
    rw [parsed_rows, List.mem_filterMap] at hparsed
    obtain ⟨raw, hraw, heq⟩ := hparsed
    rw [Option.map_eq_some'] at heq
    obtain ⟨t, hparse, hmk⟩ := heq
    refine ⟨raw, hraw, ?_, ?_, ?_, ?_⟩ <;> rw [← hmk] <;> simpa using hparse ▸ rfl
  · intro loc
    have hpw : (normalized parse rows).Pairwise (fun a b => rowLe a b = true) :=
      (sorted_rows_pairwise (parsed_rows parse rows)).sublist (drop_duplicates_sublist _ _)
    have hfil := hpw.filter (fun r => decide (r.Location = loc))
    refine hfil.imp_of_mem ?_
    intro a b ha hb hab
    have ha' : a.Location = loc := by simpa using (List.mem_filter.mp ha).2
    have hb' : b.Location = loc := by simpa using (List.mem_filter.mp hb).2
    simp only [rowLe, decide_eq_true_eq] at hab
    rcases hab with h | ⟨_, h⟩
    · exact absurd (ha'.trans hb'.symm ▸ h) (lt_irrefl _)
    · exact h

theorem normalized_invariants_witness :
    ∃ raw ∈ [RawRow.mk "bad" "Arrived at location" "a" "L",
             RawRow.mk "t0" "Arrived at location" "a" "L"],
      (fun s => if s = "t0" then some (0 : ℚ) else none) raw.DateandTime =
          some (Row.mk 0 "Arrived at location" "a" "L").DateandTime ∧
      (Row.mk 0 "Arrived at location" "a" "L").ArrivedLeft = raw.ArrivedLeft ∧
      (Row.mk 0 "Arrived at location" "a" "L").Address = raw.Address ∧
      (Row.mk 0 "Arrived at location" "a" "L").Location = raw.Location :=
  (normalized_invariants (fun s => if s = "t0" then some (0 : ℚ) else none)
      [RawRow.mk "bad" "Arrived at location" "a" "L",
       RawRow.mk "t0" "Arrived at location" "a" "L"]).1
    (Row.mk 0 "Arrived at location" "a" "L")
    (by simp [normalized, sorted_rows, parsed_rows, drop_duplicates])

end DutyHours
